import Mathlib

/-!
Shallow embedding of the researchAI backend job-orchestration core
(`src/backend/src/controllers/researchController.js` together with
`src/backend/src/services/pdfProcessorService.js` and the paper-summary
logic of the Gemini service).

Modelling conventions:
* JS objects used as string-keyed maps (`papersByTopic`, the `jobs` and
  `results` maps) are association lists with JS-object insert/overwrite
  semantics (`objSet`, `objGet`), preserving first-insertion key order.
* JS numbers holding progress values are rationals (the controller's
  `20 + (i / n) * 30` is exact in binary floating point for the inputs
  used in the theorems below).
* External collaborator calls (`geminiService.expandQuery`, the Gemini
  synthesis call inside `generateResearchAnalysis`,
  `scholarScraperService.searchScholar`, and the PDF download+parse pair)
  are oracles supplied in an `Env`; the deterministic control flow around
  them is translated from the source.
* `uuidv4` is modelled as a fresh-identifier supply (a counter whose value
  is the new id); its contract is one unused id per call.
* `Date` timestamps (`createdAt`/`updatedAt`) and Bull's internal
  `job.progress(...)` bookkeeping are not modelled: no claim mentions them.
* Bull retries the processor (the authoritative controller registers
  `attempts: 2`), so a job lifetime is one attempt, followed by a second
  attempt exactly when the first threw (equivalently: ended `failed`).
-/

namespace ResearchAI

/-- The job status values of the spec's state machine.  The code only ever
stores `queued`, `processing`, `completed` and `failed`; the remaining
constructors exist so that the spec's claimed status chain can be stated. -/
inductive Status where
  | queued
  | expanding
  | searching
  | processing
  | analyzing
  | completed
  | failed
deriving DecidableEq, Repr

/-- One paper record as produced by `scholarScraperService.searchScholar`
and enriched by `pdfProcessorService.processPapers`.  JS-falsy string
fields are the empty string; absent values are `none`. -/
structure Paper where
  title : String
  authors : String
  year : String
  publication : String
  abstract : String
  url : Option String
  pdfUrl : Option String
  citationCount : Nat
  citation : String
  fullText : Option String
deriving DecidableEq, Repr

/-- The `papersByTopic` / `processedPapers` shape: a JS object mapping topic strings
to arrays of papers. -/
abbrev PapersByTopic := List (String × List Paper)

/-- JS object property write `m[k] = v`: overwrite if the key exists,
else append (JS objects keep first-insertion key order). -/
def objSet {κ α : Type} [DecidableEq κ] : List (κ × α) → κ → α → List (κ × α)
  | [], k, v => [(k, v)]
  | (k', v') :: rest, k, v =>
      if k' = k then (k, v) :: rest else (k', v') :: objSet rest k v

/-- JS object property read `m[k]`. -/
def objGet {κ α : Type} [DecidableEq κ] : List (κ × α) → κ → Option α
  | [], _ => none
  | (k', v') :: rest, k => if k' = k then some v' else objGet rest k

/-- The truncation `s.substring(0, n) + (s.length > n ? "..." : "")` used
on abstracts (n = 500) and full texts (n = 1000) in
`generateResearchAnalysis`. -/
def strTrunc (n : Nat) (s : String) : String :=
  if s.length > n then s.take n ++ "..." else s

/-- JS truthiness test `paper.title && paper.authors && paper.abstract`
used by `generateResearchAnalysis` to select papers for the prompt. -/
def validPaper (p : Paper) : Bool :=
  !p.title.isEmpty && !p.authors.isEmpty && !p.abstract.isEmpty

/-- One entry of the `paperSummaries` array built in
`generateResearchAnalysis` (`src/unnamed/part_001`, lines 86–105). -/
structure PaperSummary where
  topic : String
  title : String
  authors : String
  year : String
  abstract : String
  fullText : Option String
  url : Option String
  citation : String
deriving DecidableEq, Repr

/-- The expression `paper.fullText ? paper.fullText.substring(0, 1000) + ... : null`:
JS-falsy (absent or empty) full text becomes `null`. -/
def summaryFullText (ft : Option String) : Option String :=
  match ft with
  | none => none
  | some s => if s.isEmpty then none else some (strTrunc 1000 s)

/-- The summary record pushed for one qualifying paper. -/
def paperSummary (topic : String) (p : Paper) : PaperSummary :=
  { topic := topic
    title := p.title
    authors := p.authors
    year := p.year
    abstract := strTrunc 500 p.abstract
    fullText := summaryFullText p.fullText
    url := p.url
    citation := p.citation }

/-- The `paperSummaries` array: for each topic, the summaries of papers
whose `title`, `authors` and `abstract` are all truthy. -/
def paperSummaries (pbt : PapersByTopic) : List PaperSummary :=
  pbt.flatMap (fun tp => (tp.2.filter validPaper).map (paperSummary tp.1))

/-- The function `geminiService.generateResearchAnalysis` (`src/unnamed/part_001`,
lines 79–207).  `synth` is the oracle for the Gemini call plus JSON
extraction (its error is the message thrown inside the `try`).  The inner
throw on an empty summary list and the outer wrapping catch are
translated from the source. -/
def generateResearchAnalysis (synth : Except String String) (pbt : PapersByTopic) :
    Except String String :=
  if (paperSummaries pbt).isEmpty then
    .error "Failed to generate research analysis: No valid papers found for analysis"
  else
    match synth with
    | .ok a => .ok a
    | .error e => .error ("Failed to generate research analysis: " ++ e)

/-- The per-paper body of `pdfProcessorService.processPapers`
(`src/backend/src/services/pdfProcessorService.js`, lines 33–122).
`extract` is the oracle for `downloadPdf` + `pdfParse` at a given URL:
`some text` when download and parsing both succeed, `none` on any failure
(failed download, non-PDF content, parse error) — in every failure case
the code keeps the paper unchanged.  A paper with a JS-falsy title is
skipped (`continue`), i.e. dropped from the output. -/
def processPaper (extract : String → Option String) (p : Paper) : Option Paper :=
  if p.title.isEmpty then none
  else
    match p.pdfUrl with
    | some url =>
        match extract url with
        | some text => some { p with fullText := some text }
        | none => some p
    | none => some p

/-- The inner loop of `processPapers` over one topic's paper array. -/
def processTopicPapers (extract : String → Option String) (papers : List Paper) :
    List Paper :=
  papers.filterMap (processPaper extract)

/-- The function `pdfProcessorService.processPapers`: iterate the topics of the input
object, processing each paper.  The JS function is total: every statement
of the per-paper body sits inside a `try` whose `catch` still pushes the
paper, so no fatal error escapes. -/
def processPapers (extract : String → Option String) (pbt : PapersByTopic) :
    PapersByTopic :=
  pbt.map (fun tp => (tp.1, processTopicPapers extract tp.2))

/-- One `updateJobStatus(jobId, status, progress, message)` call recorded
in order (`researchController.js`, lines 239–264 write these fields). -/
structure Upd where
  status : Status
  progress : ℚ
  message : String
deriving DecidableEq, Repr

/-- The `catch` block of the queue processor:
`updateJobStatus(jobId, "failed", 0, `Error: ${error.message}`)`. -/
def failUpd (msg : String) : Upd :=
  ⟨.failed, 0, "Error: " ++ msg⟩

/-- Collaborator outcomes for one execution of the queue processor.
`expand` is what `geminiService.expandQuery(query)` returns or throws;
`search i` is what the `i`-th `scholarScraperService.searchScholar` call
returns or throws; `extract` and `synth` feed `processPapers` and
`generateResearchAnalysis` above. -/
structure Env where
  expand : Except String (List String)
  search : Nat → Except String (List Paper)
  extract : String → Option String
  synth : Except String String

/-- The papers stored for one topic: the searched list on success, `[]`
when the per-topic `catch` ran (`researchController.js`, lines 182–188). -/
def searchResult (r : Except String (List Paper)) : List Paper :=
  match r with
  | .ok ps => ps
  | .error _ => []

/-- The status update written at the top of iteration `i` of the search
loop: progress `20 + (i / expandedTopics.length) * 30`
(`researchController.js`, lines 179–180). -/
def searchUpd (n i : Nat) (topic : String) : Upd :=
  ⟨.processing, 20 + ((i : ℚ) / (n : ℚ)) * 30, "Searching for: " ++ topic⟩

/-- The search loop (`researchController.js`, lines 177–189): per topic it
writes a status update, then stores `searchScholar`'s papers (or `[]` on a
per-topic error) into the `papersByTopic` object.  Returns the updates and
the final object. -/
def searchLoop (search : Nat → Except String (List Paper)) (n : Nat) :
    List String → Nat → PapersByTopic → List Upd × PapersByTopic
  | [], _, m => ([], m)
  | t :: rest, i, m =>
      let out := searchLoop search n rest (i + 1) (objSet m t (searchResult (search i)))
      (searchUpd n i t :: out.1, out.2)

/-- The total `Object.values(papersByTopic).reduce((sum, papers) => sum + papers.length, 0)`
(`researchController.js`, lines 191–194). -/
def totalPapers (m : PapersByTopic) : Nat :=
  (m.map (fun tp => tp.2.length)).sum

/-- The `results.set(jobId, ...)` payload (`researchController.js`,
lines 220–225). -/
structure ResultRec where
  query : String
  expandedTopics : List String
  papersByTopic : PapersByTopic
  analysis : String
deriving DecidableEq, Repr

/-- Everything one execution of the queue processor produces: the ordered
`updateJobStatus` calls, the stored result (when it completed), and how
many `searchScholar` calls it made. -/
structure RunOut where
  trace : List Upd
  result : Option ResultRec
  searchCalls : Nat
deriving Repr

/-- The `researchQueue.process("process-research", ...)` handler
(`researchController.js`, lines 163–237), as a function of the
collaborator outcomes.  Direct translation of the control flow:
status 10 → expand (throw ⇒ failed) → status 20 → search loop (per-topic
errors tolerated) → zero-total check (⇒ failed) → status 50 →
`processPapers` (total, cannot throw) → status 90 →
`generateResearchAnalysis` (error ⇒ failed) → store result → completed. -/
def updExpanding : Upd := ⟨.processing, 10, "Expanding research query"⟩

def updSearching : Upd := ⟨.processing, 20, "Searching Google Scholar"⟩

def updPdfs : Upd := ⟨.processing, 50, "Processing PDFs"⟩

def updAnalysis : Upd := ⟨.processing, 90, "Generating research analysis"⟩

def updCompleted : Upd := ⟨.completed, 100, "Research analysis completed"⟩

def noPapersMsg : String :=
  "No research papers could be found for the given topics."

def processResearch (env : Env) (query : String) : RunOut :=
  match env.expand with
  | .error e => ⟨[updExpanding, failUpd e], none, 0⟩
  | .ok expandedTopics =>
      let s := searchLoop env.search expandedTopics.length expandedTopics 0 []
      if totalPapers s.2 = 0 then
        ⟨updExpanding :: updSearching :: s.1 ++ [failUpd noPapersMsg],
         none, expandedTopics.length⟩
      else
        let processed := processPapers env.extract s.2
        match generateResearchAnalysis env.synth processed with
        | .error e =>
            ⟨updExpanding :: updSearching :: s.1 ++ [updPdfs, updAnalysis, failUpd e],
             none, expandedTopics.length⟩
        | .ok analysis =>
            ⟨updExpanding :: updSearching :: s.1 ++ [updPdfs, updAnalysis, updCompleted],
             some ⟨query, expandedTopics, processed, analysis⟩,
             expandedTopics.length⟩

/-- Whether an attempt's trace ends in a `failed` update — exactly when the
processor re-threw, which is when Bull schedules the retry. -/
def attemptEndsFailed (t : List Upd) : Bool :=
  match t.getLast? with
  | some u => u.status = .failed
  | none => false

/-- The status/progress/message updates observable over a job's lifetime:
the initial record written by `startResearch` (`queued`, progress 0,
message absent = `""` through `getResearchStatus`), the first attempt, and
— because the job is enqueued with `attempts: 2` — a second attempt
exactly when the first one threw. -/
def lifetimeTrace (e1 e2 : Env) (query : String) : List Upd :=
  let t1 := (processResearch e1 query).trace
  ⟨.queued, 0, ""⟩ ::
    (if attemptEndsFailed t1 then t1 ++ (processResearch e2 query).trace else t1)

/-- The status values of a trace. -/
def statusesOf (t : List Upd) : List Status :=
  t.map (·.status)

/-- Collapse consecutive duplicates: the distinct statuses a poller can
observe, in order. -/
def dedupCons : List Status → List Status
  | [] => []
  | [a] => [a]
  | a :: b :: rest =>
      if a = b then dedupCons (b :: rest) else a :: dedupCons (b :: rest)

/-- The ordered distinct statuses observable via `GetStatus` over a job's
lifetime. -/
def observedStatuses (e1 e2 : Env) (query : String) : List Status :=
  dedupCons (statusesOf (lifetimeTrace e1 e2 query))

/-- The trace segment written before the zero-total check: the expanding
update, the searching update, and the per-topic updates. -/
def searchSegment (search : Nat → Except String (List Paper)) (ts : List String) :
    List Upd :=
  updExpanding :: updSearching :: (searchLoop search ts.length ts 0 []).1

/-- One entry of the `jobs` map (`researchController.js`, lines 51–57):
`message` is absent until the first `updateJobStatus`. -/
structure Job where
  status : Status
  progress : ℚ
  message : Option String
  query : String
deriving DecidableEq, Repr

/-- The module-level mutable state of the controller: the `jobs` and
`results` maps, the Bull queue contents, and the fresh-id supply standing
in for `uuidv4`. -/
structure ServerState where
  counter : Nat
  jobs : List (Nat × Job)
  results : List (Nat × ResultRec)
  queue : List (Nat × String)
deriving Repr

/-- Response of `startResearch`: HTTP 400 "Query is required", or
HTTP 202 with the new job id. -/
inductive StartResp where
  | invalidArgument
  | accepted (jobId : Nat)
deriving DecidableEq, Repr

/-- The handler `startResearch` (`researchController.js`, lines 36–90).  The guard is
`if (!query)`: it rejects exactly a missing body field or the empty
string — any other string, including whitespace-only ones, is accepted.
On acceptance it stores the `queued`/progress-0 job and enqueues
`{jobId, query}`. -/
def startResearch (st : ServerState) (reqQuery : Option String) :
    ServerState × StartResp :=
  match reqQuery with
  | none => (st, .invalidArgument)
  | some q =>
      if q.isEmpty then (st, .invalidArgument)
      else
        let jobId := st.counter
        ({ counter := st.counter + 1
           jobs := objSet st.jobs jobId ⟨.queued, 0, none, q⟩
           results := st.results
           queue := st.queue ++ [(jobId, q)] },
         .accepted jobId)

/-- Response of `getResearchStatus`: HTTP 404, or HTTP 200 with the job's
fields (`message` falls back to `""` via `job.message || ""`). -/
inductive StatusResp where
  | notFound
  | ok (status : Status) (progress : ℚ) (message : String)
deriving DecidableEq, Repr

/-- The handler `getResearchStatus` (`researchController.js`, lines 92–111). -/
def getResearchStatus (jobs : List (Nat × Job)) (jobId : Nat) : StatusResp :=
  match objGet jobs jobId with
  | none => .notFound
  | some j => .ok j.status j.progress (j.message.getD "")

/-- Response of `getResearchResults`: HTTP 404 "Job not found", HTTP 400
"not completed yet" (carrying the current status), HTTP 404 "Results not
found", or HTTP 200 with the result. -/
inductive ResultsResp where
  | notFound
  | notReady (current : Status)
  | resultsMissing
  | ok (r : ResultRec)
deriving DecidableEq, Repr

/-- The handler `getResearchResults` (`researchController.js`, lines 113–161). -/
def getResearchResults (jobs : List (Nat × Job))
    (results : List (Nat × ResultRec)) (jobId : Nat) : ResultsResp :=
  match objGet jobs jobId with
  | none => .notFound
  | some j =>
      if j.status ≠ .completed then .notReady j.status
      else
        match objGet results jobId with
        | none => .resultsMissing
        | some r => .ok r

/-- The record merge `{...job, status, progress, message, updatedAt}`
performed by `updateJobStatus`: status, progress and message are
overwritten, everything else (in particular `query`) is kept. -/
def applyUpd (j : Job) (u : Upd) : Job :=
  { j with status := u.status, progress := u.progress, message := some u.message }

/-- The helper `updateJobStatus` (`researchController.js`, lines 239–264): overwrite
status/progress/message of an existing job, no-op for an unknown id. -/
def updateJobStatus (jobs : List (Nat × Job)) (jobId : Nat) (u : Upd) :
    List (Nat × Job) :=
  match objGet jobs jobId with
  | none => jobs
  | some j => objSet jobs jobId (applyUpd j u)

/-- Apply a processor trace to the `jobs` map, in order. -/
def applyTrace (jobs : List (Nat × Job)) (jobId : Nat) : List Upd → List (Nat × Job)
  | [] => jobs
  | u :: rest => applyTrace (updateJobStatus jobs jobId u) jobId rest

/-- The effect of a sequence of `updateJobStatus` calls on one job record:
each call overwrites status, progress and message. -/
def applyUpds (j : Job) (t : List Upd) : Job :=
  t.foldl applyUpd j

/-- The state after one execution of the queue processor for `jobId`:
all its `updateJobStatus` calls applied, and on completion the
`results.set` (which the source performs just before the final
`completed` update; the final state is the same). -/
def runJob (env : Env) (st : ServerState) (jobId : Nat) (query : String) :
    ServerState :=
  let out := processResearch env query
  { st with
    jobs := applyTrace st.jobs jobId out.trace
    results :=
      match out.result with
      | some r => objSet st.results jobId r
      | none => st.results }

/-! ### Claim-level predicates -/

/-- Whether `needle` occurs as a contiguous substring of `hay`. -/
def containsSub (needle hay : List Char) : Bool :=
  hay.tails.any (fun t => needle.isPrefixOf t)

/-- The status chain claimed by the spec's state machine (§4.2). -/
def specChain : List Status :=
  [.queued, .expanding, .searching, .processing, .analyzing, .completed]

/-- The spec's claim about observable status sequences: a prefix of the
chain `Queued, Expanding, Searching, Processing, Analyzing, Completed`, or
such a prefix ending in `Failed`. -/
def specStatusOk (l : List Status) : Bool :=
  l.isPrefixOf specChain ||
    (match l.getLast? with
     | some .failed => l.dropLast.isPrefixOf specChain
     | _ => false)

/-- The claimed relation between two consecutive status updates: entering
`failed` resets progress to exactly 0, and any update that is not into
`failed` does not decrease progress. -/
def ProgressStep (u v : Upd) : Prop :=
  (v.status = .failed → v.progress = 0) ∧
    (v.status ≠ .failed → u.progress ≤ v.progress)

/-! ### Concrete fixtures used in witnesses and counterexamples -/

/-- A fully populated paper (as `searchScholar` would produce, no PDF). -/
def paperA : Paper :=
  ⟨"T1", "A", "2020", "P", "abs", some "u", none, 0, "c", none⟩

/-- A paper with a JS-falsy title (dropped by `processPapers`). -/
def paperUntitled : Paper :=
  ⟨"", "A", "2020", "P", "abs", some "u", none, 0, "c", none⟩

/-- A paper missing its authors (filtered out by
`generateResearchAnalysis`). -/
def paperNoAuthors : Paper :=
  ⟨"T2", "", "2020", "P", "abs", some "u", none, 0, "c", none⟩

/-- Collaborators that all succeed. -/
def envAllOk : Env :=
  { expand := .ok ["a", "b"]
    search := fun _ => .ok [paperA]
    extract := fun _ => none
    synth := .ok "ANALYSIS" }

/-- Successful collaborators with four expanded topics (so that the
search-loop progress values are not integers). -/
def envFourTopics : Env :=
  { envAllOk with expand := .ok ["a", "b", "c", "d"] }

/-- Topic expansion succeeds with zero topics. -/
def envNoTopics : Env :=
  { envAllOk with expand := .ok [] }

/-- Every per-topic search succeeds with an empty result set. -/
def envEmptySearch : Env :=
  { envAllOk with search := fun _ => .ok [] }

/-- The first topic's search throws; the remaining two yield a paper each. -/
def envOneFail : Env :=
  { envAllOk with
    expand := .ok ["a", "b", "c"]
    search := fun i => if i = 0 then .error "scrape failed" else .ok [paperA] }

/-- Searches succeed but no retrieved paper has title, authors and
abstract all present. -/
def envInvalidPapers : Env :=
  { envAllOk with expand := .ok ["a"], search := fun _ => .ok [paperNoAuthors] }

/-- The controller state at process start: empty maps, fresh-id counter 0. -/
def st0 : ServerState := ⟨0, [], [], []⟩

/-- The result stored for a run of `envAllOk` on query `"q"`. -/
def resultAllOk : ResultRec :=
  ⟨"q", ["a", "b"], [("a", [paperA]), ("b", [paperA])], "ANALYSIS"⟩

/-! ### Association-list (JS object) lemmas -/

theorem objGet_objSet_self {κ α : Type} [DecidableEq κ]
    (m : List (κ × α)) (k : κ) (v : α) : objGet (objSet m k v) k = some v := by
  induction m with
  | nil => simp [objSet, objGet]
  | cons p rest ih =>
      by_cases h : p.1 = k <;> simp [objSet, objGet, h, ih]

theorem objGet_objSet_ne {κ α : Type} [DecidableEq κ]
    (m : List (κ × α)) (k k' : κ) (v : α) (h : k' ≠ k) :
    objGet (objSet m k v) k' = objGet m k' := by
  induction m with
  | nil => simp [objSet, objGet, h, Ne.symm h]
  | cons p rest ih =>
      by_cases hp : p.1 = k
      · subst hp
        simp [objSet, objGet, Ne.symm h]
      · by_cases hp' : p.1 = k' <;> simp [objSet, objGet, h, hp, hp', ih]

theorem mem_objSet {κ α : Type} [DecidableEq κ]
    {m : List (κ × α)} {k : κ} {v : α} {p : κ × α} (hp : p ∈ objSet m k v) :
    p ∈ m ∨ p = (k, v) := by
  induction m with
  | nil =>
      simp [objSet] at hp
      subst hp
      simp
  | cons q rest ih =>
      by_cases h : q.1 = k
      · simp [objSet, h] at hp
        rcases hp with hp | hp
        · subst hp; simp
        · exact Or.inl (List.mem_cons_of_mem _ hp)
      · simp [objSet, h] at hp
        rcases hp with hp | hp
        · subst hp; simp
        · rcases ih hp with h' | h'
          · exact Or.inl (List.mem_cons_of_mem _ h')
          · exact Or.inr h'

/-! ### dedupCons lemmas -/

theorem dedupCons_cons_ne {a b : Status} {l : List Status} (h : a ≠ b) :
    dedupCons (a :: b :: l) = a :: dedupCons (b :: l) := by
  simp [dedupCons, h]

theorem dedupCons_cons_eq {a : Status} {l : List Status} :
    dedupCons (a :: a :: l) = dedupCons (a :: l) := by
  simp [dedupCons]

theorem dedupCons_replicate_append {k : Nat} (hk : k ≠ 0) {x : Status}
    (hx : x ≠ .processing) (l : List Status) :
    dedupCons (List.replicate k Status.processing ++ x :: l) =
      .processing :: dedupCons (x :: l) := by
  induction k with
  | zero => exact absurd rfl hk
  | succ k ih =>
      cases k with
      | zero =>
          simp only [List.replicate_succ, List.replicate, List.nil_append,
            List.cons_append]
          exact dedupCons_cons_ne (Ne.symm hx)
      | succ k' =>
          rw [List.replicate_succ, List.cons_append, List.replicate_succ,
            List.cons_append, dedupCons_cons_eq, ← List.cons_append,
            ← List.replicate_succ]
          exact ih (Nat.succ_ne_zero k')

theorem replicate_append_cons (n : Nat) (l : List Status) :
    List.replicate n Status.processing ++ Status.processing :: l =
      List.replicate (n + 1) Status.processing ++ l := by
  induction n with
  | zero => simp
  | succ n ih =>
      rw [List.replicate_succ, List.cons_append, ih]
      simp [List.replicate_succ]

/-! ### Search-loop lemmas -/

theorem searchUpd_status (n j : Nat) (t : String) :
    (searchUpd n j t).status = .processing := rfl

theorem searchUpd_progress_ge (n j : Nat) (t : String) :
    20 ≤ (searchUpd n j t).progress := by
  have h : (0 : ℚ) ≤ ((j : ℚ) / (n : ℚ)) * 30 := by positivity
  simp only [searchUpd]
  linarith

theorem searchUpd_progress_lt (n j : Nat) (t : String) (h : j < n) :
    (searchUpd n j t).progress < 50 := by
  have hn : (0 : ℚ) < (n : ℚ) := by
    exact_mod_cast Nat.lt_of_le_of_lt (Nat.zero_le j) h
  have hj : ((j : ℚ) / (n : ℚ)) < 1 := by
    rw [div_lt_one hn]
    exact_mod_cast h
  simp only [searchUpd]
  nlinarith

theorem searchUpd_progress_mono (n j : Nat) (t t' : String) :
    (searchUpd n j t).progress ≤ (searchUpd n (j + 1) t').progress := by
  simp only [searchUpd]
  have h : ((j : ℚ) / (n : ℚ)) ≤ (((j : Nat) + 1 : Nat) : ℚ) / (n : ℚ) := by
    apply div_le_div_of_nonneg_right ?_ (by positivity)
    push_cast
    linarith
  nlinarith

theorem searchLoop_fst_statuses (search : Nat → Except String (List Paper))
    (n : Nat) :
    ∀ (ts : List String) (i : Nat) (m : PapersByTopic),
      statusesOf (searchLoop search n ts i m).1 =
        List.replicate ts.length .processing := by
  intro ts
  induction ts with
  | nil => intro i m; rfl
  | cons t rest ih =>
      intro i m
      simp [searchLoop, statusesOf, List.replicate_succ, searchUpd_status]
      exact ih (i + 1) _

theorem searchLoop_fst_length (search : Nat → Except String (List Paper))
    (n : Nat) (ts : List String) (i : Nat) (m : PapersByTopic) :
    (searchLoop search n ts i m).1.length = ts.length := by
  have h := searchLoop_fst_statuses search n ts i m
  simpa [statusesOf] using congrArg List.length h

theorem searchLoop_fst_mem (search : Nat → Except String (List Paper))
    (n : Nat) :
    ∀ (ts : List String) (i : Nat) (m : PapersByTopic) (u : Upd),
      u ∈ (searchLoop search n ts i m).1 →
        ∃ j t, i ≤ j ∧ j < i + ts.length ∧ u = searchUpd n j t := by
  intro ts
  induction ts with
  | nil => intro i m u hu; simp [searchLoop] at hu
  | cons t rest ih =>
      intro i m u hu
      simp only [searchLoop, List.mem_cons] at hu
      rcases hu with hu | hu
      · refine ⟨i, t, le_rfl, ?_, hu⟩
        simp
      · obtain ⟨j, t', hj1, hj2, he⟩ := ih (i + 1) _ u hu
        refine ⟨j, t', by omega, ?_, he⟩
        simp only [List.length_cons]
        omega

theorem searchLoop_chain (search : Nat → Except String (List Paper)) (n : Nat) :
    ∀ (ts : List String) (i : Nat) (m : PapersByTopic),
      List.Chain' ProgressStep (searchLoop search n ts i m).1 := by
  intro ts
  induction ts with
  | nil => intro i m; simp [searchLoop]
  | cons t rest ih =>
      intro i m
      cases rest with
      | nil => simp [searchLoop]
      | cons t' rest' =>
          rw [searchLoop]
          refine List.chain'_cons'.mpr ⟨?_, ih (i + 1) _⟩
          intro y hy
          rw [searchLoop] at hy
          simp only [List.head?] at hy
          cases hy
          exact ⟨(fun h => nomatch h), (fun _ => searchUpd_progress_mono n i t t')⟩

theorem searchLoop_snd_untouched (search : Nat → Except String (List Paper))
    (n : Nat) :
    ∀ (ts : List String) (i : Nat) (m : PapersByTopic) (k : String),
      k ∉ ts → objGet (searchLoop search n ts i m).2 k = objGet m k := by
  intro ts
  induction ts with
  | nil => intro i m k _; rfl
  | cons t rest ih =>
      intro i m k hk
      simp only [List.mem_cons, not_or] at hk
      rw [searchLoop]
      rw [ih (i + 1) _ k hk.2, objGet_objSet_ne _ _ _ _ hk.1]

theorem searchLoop_lookup (search : Nat → Except String (List Paper)) (n : Nat) :
    ∀ (ts : List String) (i : Nat) (m : PapersByTopic),
      ts.Nodup → (∀ t ∈ ts, objGet m t = none) →
      ∀ (j : Nat) (hj : j < ts.length),
        objGet (searchLoop search n ts i m).2 (ts.get ⟨j, hj⟩) =
          some (searchResult (search (i + j))) := by
  intro ts
  induction ts with
  | nil => intro i m _ _ j hj; exact absurd hj (by simp)
  | cons t rest ih =>
      intro i m hnd hnone j hj
      rw [searchLoop]
      rcases List.nodup_cons.mp hnd with ⟨htr, hrest⟩
      cases j with
      | zero =>
          have h1 : objGet (searchLoop search n rest (i + 1)
              (objSet m t (searchResult (search i)))).2 t =
              objGet (objSet m t (searchResult (search i))) t :=
            searchLoop_snd_untouched search n rest (i + 1) _ t htr
          simp only [List.get]
          rw [h1, objGet_objSet_self]
          simp
      | succ j' =>
          have hj' : j' < rest.length := by
            simp only [List.length_cons] at hj
            omega
          have hbase : ∀ t' ∈ rest, objGet (objSet m t (searchResult (search i))) t' = none := by
            intro t' ht'
            have : t' ≠ t := fun he => htr (he ▸ ht')
            rw [objGet_objSet_ne _ _ _ _ this]
            exact hnone t' (List.mem_cons_of_mem _ ht')
          have hrec := ih (i + 1) _ hrest hbase j' hj'
          have harith : i + 1 + j' = i + (j' + 1) := by omega
          rw [harith] at hrec
          have hidx : (t :: rest).get ⟨j' + 1, hj⟩ = rest.get ⟨j', hj'⟩ := rfl
          rw [hidx]
          exact hrec

theorem searchLoop_snd_values (search : Nat → Except String (List Paper))
    (n : Nat) :
    ∀ (ts : List String) (i : Nat) (m : PapersByTopic) (pr : String × List Paper),
      pr ∈ (searchLoop search n ts i m).2 →
        pr ∈ m ∨ ∃ j, i ≤ j ∧ j < i + ts.length ∧ pr.2 = searchResult (search j) := by
  intro ts
  induction ts with
  | nil => intro i m pr hpr; exact Or.inl hpr
  | cons t rest ih =>
      intro i m pr hpr
      rw [searchLoop] at hpr
      rcases ih (i + 1) _ pr hpr with h | ⟨j, hj1, hj2, he⟩
      · rcases mem_objSet h with h' | h'
        · exact Or.inl h'
        · refine Or.inr ⟨i, le_rfl, ?_, by rw [h']⟩
          simp
      · refine Or.inr ⟨j, by omega, ?_, he⟩
        simp only [List.length_cons]
        omega

theorem searchLoop_snd_all_nil (search : Nat → Except String (List Paper))
    (n : Nat) :
    ∀ (ts : List String) (i : Nat) (m : PapersByTopic),
      (∀ pr ∈ m, pr.2 = ([] : List Paper)) →
      (∀ j, i ≤ j → j < i + ts.length → searchResult (search j) = []) →
      ∀ pr ∈ (searchLoop search n ts i m).2, pr.2 = ([] : List Paper) := by
  intro ts i m hm hs pr hpr
  rcases searchLoop_snd_values search n ts i m pr hpr with h | ⟨j, hj1, hj2, he⟩
  · exact hm pr h
  · rw [he]
    exact hs j hj1 hj2

theorem totalPapers_eq_zero {m : PapersByTopic}
    (h : ∀ pr ∈ m, pr.2 = ([] : List Paper)) : totalPapers m = 0 := by
  apply List.sum_eq_zero
  intro x hx
  rcases List.mem_map.mp hx with ⟨pr, hpr, he⟩
  rw [← he, h pr hpr]
  rfl

/-! ### Per-attempt trace lemmas -/

theorem ProgressStep_failUpd (x : Upd) (e : String) : ProgressStep x (failUpd e) :=
  ⟨(fun _ => rfl), (fun h => absurd rfl h)⟩

theorem statusesOf_cons (u : Upd) (l : List Upd) :
    statusesOf (u :: l) = u.status :: statusesOf l := rfl

theorem statusesOf_append (l1 l2 : List Upd) :
    statusesOf (l1 ++ l2) = statusesOf l1 ++ statusesOf l2 :=
  List.map_append _ l1 l2

theorem searchSegment_chain (search : Nat → Except String (List Paper))
    (ts : List String) : List.Chain' ProgressStep (searchSegment search ts) := by
  refine List.chain'_cons'.mpr ⟨?_, List.chain'_cons'.mpr ⟨?_, searchLoop_chain search ts.length ts 0 []⟩⟩
  · intro y hy
    simp only [List.head?] at hy
    cases hy
    exact ⟨(fun h => nomatch h), (fun _ => by norm_num [updExpanding, updSearching])⟩
  · intro y hy
    cases ts with
    | nil => simp [searchLoop] at hy
    | cons t rest =>
        rw [searchLoop] at hy
        simp only [List.head?] at hy
        cases hy
        refine ⟨(fun h => nomatch h), (fun _ => ?_)⟩
        have := searchUpd_progress_ge (t :: rest).length 0 t
        simpa [updSearching] using this

theorem searchSegment_last (search : Nat → Except String (List Paper))
    (ts : List String) :
    ∀ x ∈ (searchSegment search ts).getLast?, x.status = .processing ∧ x.progress ≤ 50 := by
  intro x hx
  rcases hl : (searchLoop search ts.length ts 0 []).1 with _ | ⟨v, l⟩
  · simp only [searchSegment, hl] at hx
    simp only [List.getLast?] at hx
    cases hx
    exact ⟨rfl, by norm_num [updSearching]⟩
  · have hmem : x ∈ (searchLoop search ts.length ts 0 []).1 := by
      simp only [searchSegment, hl] at hx
      rw [List.getLast?_cons_cons, List.getLast?_cons_cons] at hx
      obtain ⟨hne, he⟩ := List.mem_getLast?_eq_getLast hx
      rw [hl]
      exact he ▸ List.getLast_mem hne
    obtain ⟨j, t, hj0, hjlt, he⟩ := searchLoop_fst_mem search ts.length ts 0 [] x hmem
    subst he
    have hlt : j < ts.length := by omega
    exact ⟨searchUpd_status _ _ _, (searchUpd_progress_lt ts.length j t hlt).le⟩

theorem searchSegment_statuses (search : Nat → Except String (List Paper))
    (ts : List String) :
    statusesOf (searchSegment search ts) =
      List.replicate (ts.length + 2) .processing := by
  simp only [searchSegment, statusesOf_cons,
    searchLoop_fst_statuses search ts.length ts 0 []]
  rfl

theorem searchSegment_head (search : Nat → Except String (List Paper))
    (ts : List String) : (searchSegment search ts).head? = some updExpanding := rfl

/-- The four possible shapes of a single processor execution's trace, with
everything C1 and C2 need: head, last, status sequence, and the pairwise
progress relation. -/
theorem processResearch_trace_spec (env : Env) (q : String) :
    ∃ (k : Nat) (u : Upd),
      1 ≤ k ∧
      (processResearch env q).trace.head? = some updExpanding ∧
      (processResearch env q).trace.getLast? = some u ∧
      ((u.status = .completed ∧ u.progress = 100) ∨
        (u.status = .failed ∧ u.progress = 0)) ∧
      statusesOf (processResearch env q).trace =
        List.replicate k .processing ++ [u.status] ∧
      List.Chain' ProgressStep (processResearch env q).trace := by
  rcases hexp : env.expand with e | ts
  · have htr : (processResearch env q).trace = [updExpanding, failUpd e] := by
      simp [processResearch, hexp]
    refine ⟨1, failUpd e, le_rfl, ?_, ?_, Or.inr ⟨rfl, rfl⟩, ?_, ?_⟩
    · rw [htr]; rfl
    · rw [htr]; rfl
    · rw [htr]; rfl
    · rw [htr, List.chain'_pair]
      exact ProgressStep_failUpd updExpanding e
  · by_cases htot : totalPapers (searchLoop env.search ts.length ts 0 []).2 = 0
    · have htr : (processResearch env q).trace =
          searchSegment env.search ts ++ [failUpd noPapersMsg] := by
        simp [processResearch, hexp, htot, searchSegment]
      refine ⟨ts.length + 2, failUpd noPapersMsg, by omega, ?_, ?_,
        Or.inr ⟨rfl, rfl⟩, ?_, ?_⟩
      · rw [htr]
        rw [List.head?_append_of_ne_nil _ (by simp [searchSegment])]
        exact searchSegment_head env.search ts
      · rw [htr]
        exact List.getLast?_concat _
      · rw [htr, statusesOf_append, searchSegment_statuses]
        rfl
      · rw [htr]
        refine List.chain'_append.mpr ⟨searchSegment_chain env.search ts,
          List.chain'_singleton _, ?_⟩
        intro x _ y hy
        simp only [List.head?] at hy
        cases hy
        exact ProgressStep_failUpd x noPapersMsg
    · have hchain3 : ∀ (last : Upd), ProgressStep updAnalysis last →
          List.Chain' ProgressStep
            (searchSegment env.search ts ++ [updPdfs, updAnalysis, last]) := by
        intro last hlast
        refine List.chain'_append.mpr ⟨searchSegment_chain env.search ts, ?_, ?_⟩
        · refine List.chain'_cons'.mpr ⟨?_, List.chain'_cons'.mpr ⟨?_, List.chain'_singleton _⟩⟩
          · intro y hy
            simp only [List.head?] at hy
            cases hy
            exact ⟨(fun h => nomatch h), (fun _ => by norm_num [updPdfs, updAnalysis])⟩
          · intro y hy
            simp only [List.head?] at hy
            cases hy
            exact hlast
        · intro x hx y hy
          simp only [List.head?] at hy
          cases hy
          obtain ⟨_, hle⟩ := searchSegment_last env.search ts x hx
          exact ⟨(fun h => nomatch h), (fun _ => by simpa [updPdfs] using hle)⟩
      have hstat3 : ∀ (last : Upd),
          statusesOf (searchSegment env.search ts ++ [updPdfs, updAnalysis, last]) =
            List.replicate (ts.length + 4) .processing ++ [last.status] := by
        intro last
        rw [statusesOf_append, searchSegment_statuses]
        show List.replicate (ts.length + 2) .processing ++
          (Status.processing :: Status.processing :: [last.status]) = _
        rw [replicate_append_cons, replicate_append_cons]
      rcases hsyn : generateResearchAnalysis env.synth
          (processPapers env.extract (searchLoop env.search ts.length ts 0 []).2)
        with e | a
      · have htr : (processResearch env q).trace =
            searchSegment env.search ts ++ [updPdfs, updAnalysis, failUpd e] := by
          simp [processResearch, hexp, htot, hsyn, searchSegment]
        refine ⟨ts.length + 4, failUpd e, by omega, ?_, ?_,
          Or.inr ⟨rfl, rfl⟩, ?_, ?_⟩
        · rw [htr, List.head?_append_of_ne_nil _ (by simp [searchSegment])]
          exact searchSegment_head env.search ts
        · rw [htr, List.getLast?_append_of_ne_nil _ (by simp)]
          rfl
        · rw [htr]
          exact hstat3 (failUpd e)
        · rw [htr]
          exact hchain3 (failUpd e) (ProgressStep_failUpd _ e)
      · have htr : (processResearch env q).trace =
            searchSegment env.search ts ++ [updPdfs, updAnalysis, updCompleted] := by
          simp [processResearch, hexp, htot, hsyn, searchSegment]
        refine ⟨ts.length + 4, updCompleted, by omega, ?_, ?_,
          Or.inl ⟨rfl, rfl⟩, ?_, ?_⟩
        · rw [htr, List.head?_append_of_ne_nil _ (by simp [searchSegment])]
          exact searchSegment_head env.search ts
        · rw [htr, List.getLast?_append_of_ne_nil _ (by simp)]
          rfl
        · rw [htr]
          exact hstat3 updCompleted
        · rw [htr]
          exact hchain3 updCompleted
            ⟨(fun h => nomatch h), (fun _ => by norm_num [updAnalysis, updCompleted])⟩

/-! ### Lifetime-level lemmas -/

theorem dedupCons_cons_rep {a : Status} (ha : a ≠ .processing) {k : Nat}
    (hk : 1 ≤ k) {x : Status} (hx : x ≠ .processing) (l : List Status) :
    dedupCons (a :: (List.replicate k Status.processing ++ x :: l)) =
      a :: .processing :: dedupCons (x :: l) := by
  obtain ⟨k', rfl⟩ : ∃ k', k = k' + 1 := ⟨k - 1, by omega⟩
  rw [List.replicate_succ, List.cons_append, dedupCons_cons_ne ha,
    ← List.cons_append, ← List.replicate_succ,
    dedupCons_replicate_append (Nat.succ_ne_zero k') hx]

theorem attemptEndsFailed_eq {t : List Upd} {u : Upd} (h : t.getLast? = some u) :
    attemptEndsFailed t = decide (u.status = .failed) := by
  simp [attemptEndsFailed, h]

theorem trace_ne_nil_of_head {t : List Upd} {u : Upd} (h : t.head? = some u) :
    t ≠ [] := by
  intro he
  rw [he] at h
  cases h

theorem trace_ne_nil_of_getLast {t : List Upd} {u : Upd}
    (h : t.getLast? = some u) : t ≠ [] := by
  intro he
  rw [he] at h
  cases h

/-! ### Claim C1 -/

/-- C1 counterexample: for a job whose pipeline succeeds, the distinct
statuses observable via `GetStatus` are `queued, processing, completed` —
which is not a prefix of the spec's chain
`Queued, Expanding, Searching, Processing, Analyzing, Completed` (that
would require `expanding` right after `queued`), nor such a prefix ending
in `Failed`.  The code never stores `expanding`, `searching` or
`analyzing`; the claimed status vocabulary is wrong. -/
theorem c1_counterexample :
    specStatusOk (observedStatuses envAllOk envAllOk "q") = false := by
  with_unfolding_all rfl

/-- C1 (amended): over a job's lifetime (its first execution plus the one
Bull retry on failure), the distinct statuses observable via `GetStatus`
are exactly `queued, processing, completed`, or `queued, processing,
failed`, or — when the failed first execution is retried — `queued,
processing, failed, processing` followed by `completed` or `failed`.
Within each execution the status never regresses and there is no
transition out of `completed`. -/
theorem c1_amended_status_lifecycle (e1 e2 : Env) (q : String) :
    observedStatuses e1 e2 q = [.queued, .processing, .completed] ∨
    observedStatuses e1 e2 q = [.queued, .processing, .failed] ∨
    observedStatuses e1 e2 q =
      [.queued, .processing, .failed, .processing, .completed] ∨
    observedStatuses e1 e2 q =
      [.queued, .processing, .failed, .processing, .failed] := by
  obtain ⟨k1, u1, hk1, hh1, hl1, ht1, hs1, _⟩ := processResearch_trace_spec e1 q
  obtain ⟨k2, u2, hk2, hh2, hl2, ht2, hs2, _⟩ := processResearch_trace_spec e2 q
  have hef := attemptEndsFailed_eq hl1
  rcases ht1 with ⟨hc1, _⟩ | ⟨hf1, _⟩
  · left
    have hfalse : attemptEndsFailed (processResearch e1 q).trace = false := by
      rw [hef, hc1]
      rfl
    simp only [observedStatuses, lifetimeTrace, hfalse]
    rw [if_neg (by simp)]
    simp only [statusesOf_cons]
    rw [hs1, hc1]
    rw [dedupCons_cons_rep (by simp) hk1 (by simp) []]
    rfl
  · have htrue : attemptEndsFailed (processResearch e1 q).trace = true := by
      rw [hef, hf1]
      rfl
    simp only [observedStatuses, lifetimeTrace, htrue, if_true]
    simp only [statusesOf_cons, statusesOf_append]
    rw [hs1, hs2, hf1, List.append_assoc, List.singleton_append]
    rw [dedupCons_cons_rep (by simp) hk1 (by simp) _]
    rcases ht2 with ⟨hc2, _⟩ | ⟨hf2, _⟩
    · rw [hc2, dedupCons_cons_rep (by simp) hk2 (by simp) []]
      right; right; left
      rfl
    · rw [hf2, dedupCons_cons_rep (by simp) hk2 (by simp) []]
      right; right; right
      rfl

/-! ### Claim C2 -/

/-- C2 counterexample: with four expanded topics, the second search-loop
update records progress `20 + (1/4)·30 = 55/2`, which is not an integer —
the authoritative controller does not floor `20 + (i / n) * 30`.  So "the
progress value is an integer" fails on this job. -/
theorem c2_counterexample :
    ((lifetimeTrace envFourTopics envFourTopics "q").all
      (fun u => u.progress.den == 1)) = false := by
  with_unfolding_all rfl

/-- C2 (amended): progress is a rational number; across every pair of
consecutive observable updates of a job's lifetime, any update that is not
into `failed` does not decrease progress, and every update into `failed`
sets progress to exactly 0. -/
theorem c2_amended_progress_policy (e1 e2 : Env) (q : String) :
    List.Chain' ProgressStep (lifetimeTrace e1 e2 q) := by
  obtain ⟨k1, u1, hk1, hh1, hl1, ht1, hs1, hch1⟩ := processResearch_trace_spec e1 q
  obtain ⟨k2, u2, hk2, hh2, hl2, ht2, hs2, hch2⟩ := processResearch_trace_spec e2 q
  simp only [lifetimeTrace]
  by_cases hef : attemptEndsFailed (processResearch e1 q).trace = true
  · rw [if_pos hef]
    refine List.chain'_cons'.mpr ⟨?_, ?_⟩
    · intro y hy
      rw [List.head?_append_of_ne_nil _ (trace_ne_nil_of_head hh1), hh1] at hy
      cases hy
      exact ⟨(fun h => nomatch h), (fun _ => by norm_num [updExpanding])⟩
    · refine List.chain'_append.mpr ⟨hch1, hch2, ?_⟩
      intro x hx y hy
      rw [hl1] at hx
      rw [hh2] at hy
      cases hx
      cases hy
      have hf1 : u1.status = .failed ∧ u1.progress = 0 := by
        rcases ht1 with ⟨hc1, _⟩ | hf1
        · rw [attemptEndsFailed_eq hl1, hc1] at hef
          exact absurd hef (by simp)
        · exact hf1
      refine ⟨(fun h => nomatch h), (fun _ => ?_)⟩
      rw [hf1.2]
      norm_num [updExpanding]
  · rw [if_neg hef]
    refine List.chain'_cons'.mpr ⟨?_, hch1⟩
    intro y hy
    rw [hh1] at hy
    cases hy
    exact ⟨(fun h => nomatch h), (fun _ => by norm_num [updExpanding])⟩

/-! ### Claims C3 and C4 -/

theorem processResearch_noTopics {env : Env} (h : env.expand = .ok []) (q : String) :
    processResearch env q =
      ⟨[updExpanding, updSearching, failUpd noPapersMsg], none, 0⟩ := by
  simp [processResearch, h, searchLoop, totalPapers]

theorem lifetimeTrace_getLast_of_failed {e1 e2 : Env} {q : String} {u1 u2 : Upd}
    (h1 : (processResearch e1 q).trace.getLast? = some u1)
    (hf : u1.status = .failed)
    (h2 : (processResearch e2 q).trace.getLast? = some u2) :
    (lifetimeTrace e1 e2 q).getLast? = some u2 := by
  simp only [lifetimeTrace]
  rw [if_pos (by rw [attemptEndsFailed_eq h1, hf]; rfl)]
  have hne : (processResearch e2 q).trace ≠ [] := trace_ne_nil_of_getLast h2
  have hne12 : (processResearch e1 q).trace ++ (processResearch e2 q).trace ≠ [] := by
    simp [List.append_eq_nil, hne]
  show ([(⟨.queued, 0, ""⟩ : Upd)] ++
      ((processResearch e1 q).trace ++ (processResearch e2 q).trace)).getLast? = some u2
  rw [List.getLast?_append_of_ne_nil _ hne12, List.getLast?_append_of_ne_nil _ hne, h2]

/-- C3 counterexample: when topic expansion returns zero topics, the job
does end `failed` without any search call, but its diagnostic message is
`Error: No research papers could be found for the given topics.`, which
does not reference expansion (it does not even contain the fragment
`expan`).  The message the claim requires is wrong. -/
theorem c3_counterexample :
    (lifetimeTrace envNoTopics envNoTopics "q").getLast? =
      some ⟨.failed, 0,
        "Error: No research papers could be found for the given topics."⟩ ∧
    containsSub "expan".toList
      "Error: No research papers could be found for the given topics.".toList
      = false ∧
    (processResearch envNoTopics "q").searchCalls = 0 :=
  ⟨by with_unfolding_all rfl, by decide, by with_unfolding_all rfl⟩

/-- C3 (amended): for every job whose topic expansion returns an empty
sequence of topics (on both executions), the job ends `failed` with the
message `Error: No research papers could be found for the given topics.`
(referencing that no papers were found, not the expansion), and no search
call is ever invoked. -/
theorem c3_amended_empty_expansion (e1 e2 : Env) (q : String)
    (h1 : e1.expand = .ok []) (h2 : e2.expand = .ok []) :
    (lifetimeTrace e1 e2 q).getLast? = some (failUpd noPapersMsg) ∧
    (processResearch e1 q).searchCalls = 0 ∧
    (processResearch e2 q).searchCalls = 0 := by
  have hp1 := processResearch_noTopics h1 q
  have hp2 := processResearch_noTopics h2 q
  refine ⟨?_, by rw [hp1], by rw [hp2]⟩
  have hg1 : (processResearch e1 q).trace.getLast? = some (failUpd noPapersMsg) := by
    rw [hp1]
    rfl
  have hg2 : (processResearch e2 q).trace.getLast? = some (failUpd noPapersMsg) := by
    rw [hp2]
    rfl
  exact lifetimeTrace_getLast_of_failed hg1 rfl hg2

/-- C3 witness: the amended claim at a concrete environment whose
expansion yields zero topics. -/
theorem c3_witness :
    (lifetimeTrace envNoTopics envNoTopics "w").getLast? =
      some (failUpd noPapersMsg) ∧
    (processResearch envNoTopics "w").searchCalls = 0 ∧
    (processResearch envNoTopics "w").searchCalls = 0 :=
  c3_amended_empty_expansion envNoTopics envNoTopics "w" rfl rfl

theorem processResearch_total_zero {env : Env} {ts : List String} (q : String)
    (hexp : env.expand = .ok ts)
    (hall : ∀ j, j < ts.length → searchResult (env.search j) = []) :
    (processResearch env q).trace =
      searchSegment env.search ts ++ [failUpd noPapersMsg] ∧
    (processResearch env q).searchCalls = ts.length := by
  have htot : totalPapers (searchLoop env.search ts.length ts 0 []).2 = 0 := by
    apply totalPapers_eq_zero
    apply searchLoop_snd_all_nil env.search ts.length ts 0 []
    · intro pr hpr
      cases hpr
    · intro j _ hj2
      exact hall j (by omega)
  exact ⟨by simp [processResearch, hexp, htot, searchSegment],
    by simp [processResearch, hexp, htot]⟩

/-- C4 (confirmed): when every topic's search is attempted and stores an
empty set (success with no documents, or a caught per-topic error), the
execution writes one update per topic and only then — after the last
topic — fails with `Error: No research papers could be found for the
given topics.`; the whole lifetime (both executions) ends `failed` with
that message, and the number of search calls equals the number of
topics. -/
theorem c4_no_material_found (e1 e2 : Env) (q : String) (ts1 ts2 : List String)
    (h1 : e1.expand = .ok ts1) (h2 : e2.expand = .ok ts2)
    (ha1 : ∀ j, j < ts1.length → searchResult (e1.search j) = [])
    (ha2 : ∀ j, j < ts2.length → searchResult (e2.search j) = []) :
    (lifetimeTrace e1 e2 q).getLast? = some (failUpd noPapersMsg) ∧
    (processResearch e1 q).trace =
      searchSegment e1.search ts1 ++ [failUpd noPapersMsg] ∧
    (searchSegment e1.search ts1).length = ts1.length + 2 ∧
    (processResearch e1 q).searchCalls = ts1.length ∧
    (processResearch e2 q).searchCalls = ts2.length := by
  obtain ⟨htr1, hc1⟩ := processResearch_total_zero q h1 ha1
  obtain ⟨htr2, hc2⟩ := processResearch_total_zero q h2 ha2
  refine ⟨?_, htr1, ?_, hc1, hc2⟩
  · have hg1 : (processResearch e1 q).trace.getLast? = some (failUpd noPapersMsg) := by
      rw [htr1]
      exact List.getLast?_concat _
    have hg2 : (processResearch e2 q).trace.getLast? = some (failUpd noPapersMsg) := by
      rw [htr2]
      exact List.getLast?_concat _
    exact lifetimeTrace_getLast_of_failed hg1 rfl hg2
  · simp [searchSegment, searchLoop_fst_length]

/-- C4 witness: the confirmed claim at a concrete environment where both
topics' searches succeed with empty result sets. -/
theorem c4_witness :
    (lifetimeTrace envEmptySearch envEmptySearch "q").getLast? =
      some (failUpd noPapersMsg) ∧
    (processResearch envEmptySearch "q").trace =
      searchSegment envEmptySearch.search ["a", "b"] ++ [failUpd noPapersMsg] ∧
    (searchSegment envEmptySearch.search ["a", "b"]).length = 2 + 2 ∧
    (processResearch envEmptySearch "q").searchCalls = 2 ∧
    (processResearch envEmptySearch "q").searchCalls = 2 :=
  c4_no_material_found envEmptySearch envEmptySearch "q" ["a", "b"] ["a", "b"]
    rfl rfl (fun _ _ => rfl) (fun _ _ => rfl)

/-! ### Claim C5 -/

/-- C5 (confirmed): when one topic's search call throws but the stored
topic sets still hold at least one document in total, the job does not
fail during the Searching stage: the failing topic is recorded with an
empty document set, all topics are searched (one `searchScholar` call per
topic), and the pipeline goes on to the `Processing PDFs` update. -/
theorem c5_per_topic_failure_tolerated (env : Env) (q : String)
    (ts : List String) (j : Nat) (err : String)
    (hexp : env.expand = .ok ts) (hnd : ts.Nodup) (hj : j < ts.length)
    (herr : env.search j = .error err)
    (htot : totalPapers (searchLoop env.search ts.length ts 0 []).2 ≠ 0) :
    objGet (searchLoop env.search ts.length ts 0 []).2 (ts.get ⟨j, hj⟩) =
      some [] ∧
    updPdfs ∈ (processResearch env q).trace ∧
    (processResearch env q).searchCalls = ts.length := by
  refine ⟨?_, ?_, ?_⟩
  · have h := searchLoop_lookup env.search ts.length ts 0 [] hnd
      (fun t _ => rfl) j hj
    rw [h, Nat.zero_add, herr]
    rfl
  · rcases hsyn : generateResearchAnalysis env.synth
        (processPapers env.extract (searchLoop env.search ts.length ts 0 []).2)
      with e | a
    · simp [processResearch, hexp, htot, hsyn]
    · simp [processResearch, hexp, htot, hsyn]
  · rcases hsyn : generateResearchAnalysis env.synth
        (processPapers env.extract (searchLoop env.search ts.length ts 0 []).2)
      with e | a
    · simp [processResearch, hexp, htot, hsyn]
    · simp [processResearch, hexp, htot, hsyn]

/-- C5 witness: topic `a` of three fails with a scrape error while `b`
and `c` each return one paper; the job still searches all three topics,
records `[]` for `a`, and reaches the PDF-processing stage. -/
theorem c5_witness :
    objGet (searchLoop envOneFail.search 3 ["a", "b", "c"] 0 []).2 "a" =
      some [] ∧
    updPdfs ∈ (processResearch envOneFail "q").trace ∧
    (processResearch envOneFail "q").searchCalls = 3 :=
  c5_per_topic_failure_tolerated envOneFail "q" ["a", "b", "c"] 0
    "scrape failed" rfl (by decide) (by decide) rfl
    (by with_unfolding_all decide)

/-! ### Claim C6 -/

theorem updPdfs_notin_searchSegment (search : Nat → Except String (List Paper))
    (ts : List String) : updPdfs ∉ searchSegment search ts := by
  intro h
  simp only [searchSegment, List.mem_cons] at h
  rcases h with h | h | h
  · exact absurd (congrArg Upd.message h) (by simp [updPdfs, updExpanding])
  · exact absurd (congrArg Upd.message h) (by simp [updPdfs, updSearching])
  · obtain ⟨j, t, _, hjlt, he⟩ := searchLoop_fst_mem search ts.length ts 0 [] _ h
    have hlt := searchUpd_progress_lt ts.length j t (by omega)
    rw [← he] at hlt
    norm_num [updPdfs] at hlt

/-- C6 counterexample: `processPapers` skips papers with a JS-falsy
title — `paperUntitled` has no source link, so the claim requires it to
be retained, but the output topic set is empty. -/
theorem c6_counterexample :
    processPapers (fun _ => none) [("t", [paperUntitled])] = [("t", [])] ∧
    paperUntitled.pdfUrl = none := by
  exact ⟨by decide, rfl⟩

/-- C6 (amended): the Processing stage is a total function that never
fails the job: (1) it preserves the topic grouping; (2) every document
with a (truthy) title whose download or extraction yields nothing — in
particular one with no source link — is retained unchanged, with
`fullText` left as it was (absent for search-produced documents);
documents with a falsy title are dropped; (3) in the pipeline, whenever
the `Processing PDFs` update is written, the `Generating research
analysis` update is also written — processing never aborts the run. -/
theorem c6_amended_processing_safety :
    (∀ (extract : String → Option String) (pbt : PapersByTopic),
      (processPapers extract pbt).map Prod.fst = pbt.map Prod.fst) ∧
    (∀ (extract : String → Option String) (ps : List Paper) (p : Paper),
      p ∈ ps → p.title.isEmpty = false → p.pdfUrl.bind extract = none →
        p ∈ processTopicPapers extract ps) ∧
    (∀ (env : Env) (q : String), updPdfs ∈ (processResearch env q).trace →
      updAnalysis ∈ (processResearch env q).trace) := by
  refine ⟨?_, ?_, ?_⟩
  · intro extract pbt
    simp [processPapers]
  · intro extract ps p hp htitle hbind
    refine List.mem_filterMap.mpr ⟨p, hp, ?_⟩
    rcases hurl : p.pdfUrl with _ | url
    · simp [processPaper, htitle, hurl]
    · rw [hurl] at hbind
      simp only [Option.some_bind] at hbind
      simp [processPaper, htitle, hurl, hbind]
  · intro env q h
    rcases hexp : env.expand with e | ts
    · have htr : (processResearch env q).trace = [updExpanding, failUpd e] := by
        simp [processResearch, hexp]
      rw [htr] at h
      simp only [List.mem_cons, List.not_mem_nil, or_false] at h
      rcases h with h | h
      · exact absurd (congrArg Upd.message h) (by simp [updPdfs, updExpanding])
      · exact absurd (congrArg Upd.status h) (by simp [updPdfs, failUpd])
    · by_cases htot : totalPapers (searchLoop env.search ts.length ts 0 []).2 = 0
      · have htr : (processResearch env q).trace =
            searchSegment env.search ts ++ [failUpd noPapersMsg] := by
          simp [processResearch, hexp, htot, searchSegment]
        rw [htr] at h
        rcases List.mem_append.mp h with h | h
        · exact absurd h (updPdfs_notin_searchSegment env.search ts)
        · simp only [List.mem_cons, List.not_mem_nil, or_false] at h
          exact absurd (congrArg Upd.status h) (by simp [updPdfs, failUpd])
      · rcases hsyn : generateResearchAnalysis env.synth
            (processPapers env.extract (searchLoop env.search ts.length ts 0 []).2)
          with e | a
        · simp [processResearch, hexp, htot, hsyn]
        · simp [processResearch, hexp, htot, hsyn]

/-- C6 witness: the amended claim applied at concrete inputs — a titled
paper with no source link is retained by the per-topic processing loop,
and an all-successful pipeline execution that reaches `Processing PDFs`
also reaches `Generating research analysis`. -/
theorem c6_witness :
    paperA ∈ processTopicPapers (fun _ => none) [paperA] ∧
    updAnalysis ∈ (processResearch envAllOk "q").trace := by
  refine ⟨c6_amended_processing_safety.2.1 (fun _ => none) [paperA] paperA
    (by simp) rfl rfl, c6_amended_processing_safety.2.2 envAllOk "q" ?_⟩
  have htr : (processResearch envAllOk "q").trace =
      [updExpanding, updSearching,
       ⟨.processing, 20, "Searching for: a"⟩,
       ⟨.processing, 35, "Searching for: b"⟩,
       updPdfs, updAnalysis, updCompleted] := by
    with_unfolding_all rfl
  rw [htr]
  simp

/-! ### Claim C7 -/

theorem processResearch_result_some {env : Env} {q : String} {r : ResultRec}
    (h : (processResearch env q).result = some r) :
    r.query = q ∧ env.expand = .ok r.expandedTopics ∧
    ∃ pre, (processResearch env q).trace = pre ++ [updCompleted] := by
  rcases hexp : env.expand with e | ts
  · simp [processResearch, hexp] at h
  · by_cases htot : totalPapers (searchLoop env.search ts.length ts 0 []).2 = 0
    · simp [processResearch, hexp, htot] at h
    · rcases hsyn : generateResearchAnalysis env.synth
          (processPapers env.extract (searchLoop env.search ts.length ts 0 []).2)
        with e | a
      · simp [processResearch, hexp, htot, hsyn] at h
      · have hr : (processResearch env q).result =
            some ⟨q, ts,
              processPapers env.extract (searchLoop env.search ts.length ts 0 []).2, a⟩ := by
          simp [processResearch, hexp, htot, hsyn]
        rw [hr] at h
        obtain rfl := (Option.some.inj h).symm
        refine ⟨rfl, rfl, ⟨updExpanding :: updSearching ::
          (searchLoop env.search ts.length ts 0 []).1 ++ [updPdfs, updAnalysis], ?_⟩⟩
        simp [processResearch, hexp, htot, hsyn]

theorem objGet_applyTrace (jobId : Nat) :
    ∀ (t : List Upd) (jobs : List (Nat × Job)) (j : Job),
      objGet jobs jobId = some j →
      objGet (applyTrace jobs jobId t) jobId = some (applyUpds j t) := by
  intro t
  induction t with
  | nil =>
      intro jobs j h
      simpa [applyTrace, applyUpds] using h
  | cons u rest ih =>
      intro jobs j h
      rw [applyTrace]
      have h1 : objGet (updateJobStatus jobs jobId u) jobId =
          some (applyUpd j u) := by
        simp only [updateJobStatus, h]
        exact objGet_objSet_self _ _ _
      rw [ih _ _ h1]
      rfl

theorem applyUpds_concat (j : Job) (t : List Upd) (u : Upd) :
    applyUpds j (t ++ [u]) = applyUpd (applyUpds j t) u := by
  simp [applyUpds, List.foldl_append]

theorem applyUpds_query : ∀ (t : List Upd) (j : Job),
    (applyUpds j t).query = j.query := by
  intro t
  induction t with
  | nil => intro j; rfl
  | cons u rest ih => intro j; exact ih _

/-- C7 (confirmed): `getResearchResults` answers `notFound` for an unknown
job id; `notReady` (HTTP 400, carrying the current status) for a known job
that is not `completed`; and for a job completed by the pipeline it
returns the stored result, whose `query` is the originally submitted
query and whose `expandedTopics` is exactly what the topic expander
produced for that run. -/
theorem c7_get_results (st : ServerState) :
    (∀ (jobs : List (Nat × Job)) (results : List (Nat × ResultRec)) (jobId : Nat),
      objGet jobs jobId = none →
        getResearchResults jobs results jobId = .notFound) ∧
    (∀ (jobs : List (Nat × Job)) (results : List (Nat × ResultRec))
        (jobId : Nat) (j : Job),
      objGet jobs jobId = some j → j.status ≠ .completed →
        getResearchResults jobs results jobId = .notReady j.status) ∧
    (∀ (q : String) (env : Env) (ts : List String) (r : ResultRec),
      q.isEmpty = false → env.expand = .ok ts →
      (processResearch env q).result = some r →
      ∀ st1 resp, startResearch st (some q) = (st1, resp) →
        resp = .accepted st.counter ∧
        getResearchResults (runJob env st1 st.counter q).jobs
          (runJob env st1 st.counter q).results st.counter = .ok r ∧
        r.query = q ∧ r.expandedTopics = ts) := by
  refine ⟨?_, ?_, ?_⟩
  · intro jobs results jobId h
    simp [getResearchResults, h]
  · intro jobs results jobId j h hne
    simp [getResearchResults, h, hne]
  · intro q env ts r hq hexp hres st1 resp hstart
    obtain ⟨hrq, hrts, pre, htr⟩ := processResearch_result_some hres
    have hts : ts = r.expandedTopics := by
      rw [hexp] at hrts
      exact Except.ok.inj hrts
    have hjobs1 : st1.jobs = objSet st.jobs st.counter ⟨.queued, 0, none, q⟩ := by
      have h1 : (startResearch st (some q)).1 = st1 := by rw [hstart]
      rw [← h1]
      simp [startResearch, hq]
    have hresp : resp = .accepted st.counter := by
      have h2 : (startResearch st (some q)).2 = resp := by rw [hstart]
      rw [← h2]
      simp [startResearch, hq]
    refine ⟨hresp, ?_, hrq, hts.symm ▸ rfl⟩
    have hj0 : objGet st1.jobs st.counter = some ⟨.queued, 0, none, q⟩ := by
      rw [hjobs1]
      exact objGet_objSet_self _ _ _
    have hjobs : objGet (runJob env st1 st.counter q).jobs st.counter =
        some (applyUpds ⟨.queued, 0, none, q⟩ (processResearch env q).trace) := by
      simp only [runJob]
      exact objGet_applyTrace st.counter _ _ _ hj0
    rw [htr] at hjobs
    rw [applyUpds_concat] at hjobs
    have hresr : objGet (runJob env st1 st.counter q).results st.counter = some r := by
      simp only [runJob, hres]
      exact objGet_objSet_self _ _ _
    simp [getResearchResults, hjobs, hresr, updCompleted, applyUpd]

/-- C7 witness: the three branches at concrete inputs — an empty store, a
store holding one queued job, and a full submit-then-process run of
`envAllOk`. -/
theorem c7_witness :
    getResearchResults ([] : List (Nat × Job)) [] 0 = .notFound ∧
    getResearchResults [(0, (⟨.queued, 0, none, "q"⟩ : Job))] [] 0 =
      .notReady .queued ∧
    ((startResearch st0 (some "q")).2 = .accepted st0.counter ∧
      getResearchResults
        (runJob envAllOk (startResearch st0 (some "q")).1 st0.counter "q").jobs
        (runJob envAllOk (startResearch st0 (some "q")).1 st0.counter "q").results
        st0.counter = .ok resultAllOk ∧
      resultAllOk.query = "q" ∧ resultAllOk.expandedTopics = ["a", "b"]) := by
  have h := c7_get_results st0
  exact ⟨h.1 [] [] 0 rfl,
    h.2.1 [(0, (⟨.queued, 0, none, "q"⟩ : Job))] [] 0 ⟨.queued, 0, none, "q"⟩
      rfl (by decide),
    h.2.2 "q" envAllOk ["a", "b"] resultAllOk rfl rfl
      (by with_unfolding_all rfl) _ _ rfl⟩

/-! ### Claims C8 and C9 -/

/-- C8 counterexample: the guard is `if (!query)`, and the whitespace-only
string `" "` is truthy in JS — submitting it is accepted: a job is
created (queued, progress 0, query `" "`) and a work item is enqueued,
although the claim requires an `InvalidArgument` failure with nothing
created. -/
theorem c8_counterexample :
    (startResearch st0 (some " ")).2 = .accepted 0 ∧
    objGet (startResearch st0 (some " ")).1.jobs 0 =
      some ⟨.queued, 0, none, " "⟩ ∧
    (startResearch st0 (some " ")).1.queue = [(0, " ")] := by
  refine ⟨?_, ?_, ?_⟩ <;> with_unfolding_all rfl

/-- C8 (amended): Submit fails with `InvalidArgument` if and only if the
query is absent from the request body or is the empty string; in that
case no job is created and nothing is enqueued (the whole state is
unchanged).  Whitespace-only queries are accepted. -/
theorem c8_amended_submit_validation (st : ServerState) (q : Option String) :
    ((startResearch st q).2 = .invalidArgument ↔ (q = none ∨ q = some "")) ∧
    ((q = none ∨ q = some "") → (startResearch st q).1 = st) := by
  rcases q with _ | s
  · simp [startResearch]
  · by_cases hs : s.isEmpty
    · have hs' : s = "" := (String.isEmpty_iff s).mp hs
      subst hs'
      simp [startResearch, hs]
    · have hs' : s ≠ "" := by
        intro h
        rw [h] at hs
        exact hs rfl
      simp [startResearch, hs, hs']

/-- C8 witness: the empty query is rejected and leaves the state
unchanged. -/
theorem c8_witness :
    (startResearch st0 (some "")).2 = .invalidArgument ∧
    (startResearch st0 (some "")).1 = st0 :=
  ⟨(c8_amended_submit_validation st0 (some "")).1.mpr (Or.inr rfl),
   (c8_amended_submit_validation st0 (some "")).2 (Or.inr rfl)⟩

/-- C9 (confirmed, with `uuidv4` modelled as a fresh-identifier supply):
submitting a valid non-empty query yields an id distinct from the id of
every previously submitted job; an immediate `getResearchStatus` on that
id reports status `queued`, progress 0 and an empty message; and the
freshness invariant (every stored id is below the counter) is
preserved. -/
theorem c9_fresh_id_and_initial_status (st : ServerState) (s : String)
    (hwf : ∀ p ∈ st.jobs, p.1 < st.counter) (hs : s.isEmpty = false) :
    (startResearch st (some s)).2 = .accepted st.counter ∧
    (∀ p ∈ st.jobs, p.1 ≠ st.counter) ∧
    getResearchStatus (startResearch st (some s)).1.jobs st.counter =
      .ok .queued 0 "" ∧
    (∀ p ∈ (startResearch st (some s)).1.jobs,
      p.1 < (startResearch st (some s)).1.counter) := by
  have hjobs : (startResearch st (some s)).1.jobs =
      objSet st.jobs st.counter ⟨.queued, 0, none, s⟩ := by
    simp [startResearch, hs]
  have hcounter : (startResearch st (some s)).1.counter = st.counter + 1 := by
    simp [startResearch, hs]
  refine ⟨by simp [startResearch, hs], ?_, ?_, ?_⟩
  · intro p hp
    exact Nat.ne_of_lt (hwf p hp)
  · rw [getResearchStatus, hjobs, objGet_objSet_self]
    rfl
  · intro p hp
    rw [hcounter]
    rw [hjobs] at hp
    rcases mem_objSet hp with h | h
    · exact Nat.lt_succ_of_lt (hwf p h)
    · rw [h]
      exact Nat.lt_succ_self _

/-- C9 witness: the first submission on a fresh server gets id 0, which is
new, and its immediate status is queued at progress 0. -/
theorem c9_witness :
    (startResearch st0 (some "w")).2 = .accepted st0.counter ∧
    (∀ p ∈ st0.jobs, p.1 ≠ st0.counter) ∧
    getResearchStatus (startResearch st0 (some "w")).1.jobs st0.counter =
      .ok .queued 0 "" ∧
    (∀ p ∈ (startResearch st0 (some "w")).1.jobs,
      p.1 < (startResearch st0 (some "w")).1.counter) :=
  c9_fresh_id_and_initial_status st0 "w" (by simp [st0]) rfl

/-! ### Claim C10 -/

theorem processPaper_fields {extract : String → Option String} {p p' : Paper}
    (h : processPaper extract p = some p') :
    p'.title = p.title ∧ p'.authors = p.authors ∧ p'.abstract = p.abstract := by
  unfold processPaper at h
  by_cases ht : p.title.isEmpty
  · simp [ht] at h
  · simp only [ht, Bool.false_eq_true, if_false] at h
    rcases hurl : p.pdfUrl with _ | url
    · simp only [hurl] at h
      obtain rfl := Option.some.inj h
      exact ⟨rfl, rfl, rfl⟩
    · simp only [hurl] at h
      rcases hext : extract url with _ | txt
      · simp only [hext] at h
        obtain rfl := Option.some.inj h
        exact ⟨rfl, rfl, rfl⟩
      · simp only [hext] at h
        obtain rfl := Option.some.inj h
        exact ⟨rfl, rfl, rfl⟩

theorem validPaper_processPaper {extract : String → Option String} {p p' : Paper}
    (h : processPaper extract p = some p') : validPaper p' = validPaper p := by
  obtain ⟨h1, h2, h3⟩ := processPaper_fields h
  simp [validPaper, h1, h2, h3]

theorem paperSummaries_nil (extract : String → Option String) {pbt : PapersByTopic}
    (h : ∀ pr ∈ pbt, ∀ p ∈ pr.2, validPaper p = false) :
    paperSummaries (processPapers extract pbt) = [] := by
  simp only [paperSummaries, processPapers]
  rw [List.flatMap_eq_nil_iff]
  intro x hx
  rcases List.mem_map.mp hx with ⟨pr, hpr, he⟩
  rw [← he]
  simp only [List.map_eq_nil_iff]
  rw [List.filter_eq_nil_iff]
  intro p' hp'
  rcases List.mem_filterMap.mp hp' with ⟨p, hp, hproc⟩
  rw [validPaper_processPaper hproc, h pr hpr p hp]
  simp

/-- C10 (confirmed): (1) every entry handed to the analysis synthesizer
comes from a retrieved document whose title, authors and abstract are all
truthy, with its abstract truncated at 500 characters and its full text
at 1000 (ellipsis appended when longer); (2) if no retrieved document has
all three fields, `generateResearchAnalysis` throws and the execution's
final update is `failed` with the analysis-failure message — even though
the total document count after Searching was nonzero. -/
theorem c10_analysis_input_filter :
    (∀ (pbt : PapersByTopic) (s : PaperSummary), s ∈ paperSummaries pbt →
      ∃ t ps p, (t, ps) ∈ pbt ∧ p ∈ ps ∧ validPaper p = true ∧
        s = paperSummary t p ∧ s.abstract = strTrunc 500 p.abstract ∧
        s.fullText = summaryFullText p.fullText) ∧
    (∀ (env : Env) (q : String) (ts : List String),
      env.expand = .ok ts →
      (∀ j, j < ts.length →
        ∀ p ∈ searchResult (env.search j), validPaper p = false) →
      totalPapers (searchLoop env.search ts.length ts 0 []).2 ≠ 0 →
      (processResearch env q).trace.getLast? = some (failUpd
        "Failed to generate research analysis: No valid papers found for analysis")) := by
  constructor
  · intro pbt s hs
    rcases List.mem_flatMap.mp hs with ⟨pr, hpr, hmem⟩
    rcases List.mem_map.mp hmem with ⟨p, hfil, he⟩
    rcases List.mem_filter.mp hfil with ⟨hp, hval⟩
    obtain rfl := he.symm
    exact ⟨pr.1, pr.2, p, hpr, hp, hval, rfl, rfl, rfl⟩
  · intro env q ts hexp hall htot
    have hinv : ∀ pr ∈ (searchLoop env.search ts.length ts 0 []).2,
        ∀ p ∈ pr.2, validPaper p = false := by
      intro pr hpr p hp
      rcases searchLoop_snd_values env.search ts.length ts 0 [] pr hpr
        with h | ⟨j, _, hjlt, he⟩
      · cases h
      · rw [he] at hp
        exact hall j (by omega) p hp
    have hsummaries := paperSummaries_nil env.extract hinv
    have hsyn : generateResearchAnalysis env.synth
        (processPapers env.extract (searchLoop env.search ts.length ts 0 []).2) =
        .error "Failed to generate research analysis: No valid papers found for analysis" := by
      simp [generateResearchAnalysis, hsummaries]
    have htr : (processResearch env q).trace =
        searchSegment env.search ts ++ [updPdfs, updAnalysis, failUpd
          "Failed to generate research analysis: No valid papers found for analysis"] := by
      simp [processResearch, hexp, htot, hsyn, searchSegment]
    rw [htr, List.getLast?_append_of_ne_nil _ (by simp)]
    rfl

/-- C10 witness: the filter keeps the fully populated `paperA`, and an
execution whose only retrieved paper lacks authors (but whose document
count is 1 ≠ 0) ends with the analysis-failure message. -/
theorem c10_witness :
    (∃ t ps p, (t, ps) ∈ ([("a", [paperA])] : PapersByTopic) ∧ p ∈ ps ∧
      validPaper p = true ∧ paperSummary "a" paperA = paperSummary t p ∧
      (paperSummary "a" paperA).abstract = strTrunc 500 p.abstract ∧
      (paperSummary "a" paperA).fullText = summaryFullText p.fullText) ∧
    (processResearch envInvalidPapers "q").trace.getLast? = some (failUpd
      "Failed to generate research analysis: No valid papers found for analysis") := by
  refine ⟨c10_analysis_input_filter.1 [("a", [paperA])] (paperSummary "a" paperA)
      (by decide),
    c10_analysis_input_filter.2 envInvalidPapers "q" ["a"] rfl ?_
      (by with_unfolding_all decide)⟩
  intro j _ p hp
  have hp' : p = paperNoAuthors := by
    simpa [searchResult, envInvalidPapers, envAllOk] using hp
  rw [hp']
  decide

end ResearchAI
